import Mathlib

/-!
Verification development for the rdfproxy SPARQL adapter
(src/rdfproxy/adapter.py and src/rdfproxy/utils/sparql/sparql_utils.py).

Queries are embedded as lists of characters.  Python exceptions are embedded
as an explicit error inductive and fallible operations return `Except`.
-/

/-- Scalar value of a SPARQL result binding (the adapter only ever applies
`str` and `int` to binding values, so integers and strings suffice). -/
inductive Value where
  | vInt (n : Int)
  | vStr (s : String)
deriving DecidableEq

/-- Python `str` applied to a binding value. -/
def pyStr : Value → String
  | .vInt n => toString n
  | .vStr s => s

/-- One SPARQL result row: a finite mapping from binding names to values,
embedded as an association list in insertion order (Python dicts are
ordered). -/
abbrev Row := List (String × Value)

/-- The exceptions the embedded code can raise.  `malformedQuery` stands for
the `Exception("Unable to obtain SELECT clause.")` raised in
`replace_query_select_clause` (the spec calls it `MalformedQueryError`);
`undefinedBinding` stands for `UndefinedBindingException`, carrying the
requested binding name and the offending row; `stopIteration`, `keyError`
and `valueError` are the built-in Python exceptions.  `emptyCountResult`
stands for the `EmptyCountResultError` the spec postulates; no code path
produces it. -/
inductive PyError where
  | malformedQuery
  | stopIteration
  | keyError (key : String)
  | undefinedBinding (binding : String) (row : Row)
  | valueError
  | emptyCountResult
deriving DecidableEq

/-- Lookup in an association list, first match wins (Python dict lookup;
rows produced by the endpoint have unique keys). -/
def alookup {α : Type} : List (String × α) → String → Option α
  | [], _ => none
  | (t, v) :: rest, key => if t = key then some v else alookup rest key

/-- Python `int(x)` on a binding value: an integer is returned unchanged, a
string is parsed as a decimal integer, anything unparsable raises
`ValueError`. -/
def pyIntOfValue : Value → Except PyError Int
  | .vInt n => .ok n
  | .vStr s =>
    match s.toInt? with
    | some n => .ok n
    | none => .error .valueError

/-! ## Model of the regex used by `replace_query_select_clause`

The source checks `re.search(r"select\s.+", query, re.I)` and then rewrites
with `re.sub(pattern, repl, query, count=1, flags=re.I)`.  The pattern
matches the literal `select` case-insensitively, one whitespace character
(`\s`, which includes the newline), then a maximal nonempty run of
non-newline characters (`.+`, greedy, no DOTALL).  `re.search` / `re.sub`
use the leftmost such match. -/

/-- ASCII whitespace characters matched by Python's `\s`. -/
def isPySpace (c : Char) : Bool :=
  c = ' ' || c = '\t' || c = '\n' || c = '\r' || c = '\x0b' || c = '\x0c'

/-- The literal `select`, lowercase. -/
def selectLit : List Char := ['s', 'e', 'l', 'e', 'c', 't']

/-- Case-insensitive literal match at the head of `s`: returns the rest of
`s` after the literal `p` when the head of `s` spells `p` up to
lowercasing. -/
def ciStarts : List Char → List Char → Option (List Char)
  | [], s => some s
  | _ :: _, [] => none
  | p :: ps, c :: cs => if c.toLower = p then ciStarts ps cs else none

/-- Length of the maximal run of non-newline characters at the head of the
list (what the greedy `.+` consumes, minus the nonemptiness condition). -/
def lineRun : List Char → Nat
  | [] => 0
  | c :: cs => if c = '\n' then 0 else lineRun cs + 1

/-- Length of the match of `select\s.+` (case-insensitive) anchored at the
head of `s`, if it matches there. -/
def matchLenAt (s : List Char) : Option Nat :=
  match ciStarts selectLit s with
  | none => none
  | some rest =>
    match rest with
    | [] => none
    | c :: cs =>
      if isPySpace c then
        if lineRun cs = 0 then none else some (7 + lineRun cs)
      else none

/-- Leftmost-match search: scans start positions left to right; returns the
start index (relative to `i`) and the match length. -/
def searchSelAux : List Char → Nat → Option (Nat × Nat)
  | [], _ => none
  | c :: cs, i =>
    match matchLenAt (c :: cs) with
    | some n => some (i, n)
    | none => searchSelAux cs (i + 1)

/-- Position and length of the leftmost match of `select\s.+`
(case-insensitive) in `s`, the model of `re.search(r"select\s.+", s, re.I)`. -/
def searchSel (s : List Char) : Option (Nat × Nat) := searchSelAux s 0

/-- sparql_utils.replace_query_select_clause: raise when the pattern does
not occur, otherwise replace the leftmost match, once, with `repl`. -/
def replace_query_select_clause (query repl : List Char) : Except PyError (List Char) :=
  match searchSel query with
  | none => .error .malformedQuery
  | some (i, n) => .ok (query.take i ++ repl ++ query.drop (i + n))

/-- sparql_utils.construct_count_query. -/
def construct_count_query (query : List Char) : Except PyError (List Char) :=
  replace_query_select_clause query "select (count(*) as ?cnt)".data

/-- sparql_utils.construct_grouped_count_query. -/
def construct_grouped_count_query (query group_by : List Char) : Except PyError (List Char) :=
  replace_query_select_clause query
    ("select (count(distinct ?".data ++ group_by ++ ") as ?cnt)".data)

/-- sparql_utils.calculate_offset: Python `match page` on the literals 1 and
2 with a wildcard default. -/
def calculate_offset (page size : Int) : Int :=
  if page = 1 then 0
  else if page = 2 then size
  else size * (page - 1)

/-! ## Model of `inject_subquery` -/

/-- First line of a character list and the remainder after the first
newline (the remainder is empty both for a trailing newline and for no
newline at all, exactly as with Python's `str.splitlines`). -/
def takeLine : List Char → List Char × List Char
  | [] => ([], [])
  | c :: cs =>
    if c = '\n' then ([], cs)
    else (c :: (takeLine cs).1, (takeLine cs).2)

lemma takeLine_snd_length : ∀ s : List Char, (takeLine s).2.length ≤ s.length := by
  intro s
  induction s with
  | nil => simp [takeLine]
  | cons c cs ih =>
    simp only [takeLine]
    split
    · simp
    · simpa using Nat.le_succ_of_le ih

lemma takeLine_snd_lt (c : Char) (cs : List Char) :
    (takeLine (c :: cs)).2.length < (c :: cs).length := by
  simp only [takeLine]
  split
  · simp
  · simpa using Nat.lt_succ_of_le (takeLine_snd_length cs)

/-- Python `str.splitlines` restricted to the newline separator: splits into
lines, a trailing newline producing no extra empty line. -/
def splitlinesChar : List Char → List (List Char)
  | [] => []
  | c :: cs => (takeLine (c :: cs)).1 :: splitlinesChar (takeLine (c :: cs)).2
termination_by s => s.length
decreasing_by exact takeLine_snd_lt c cs

/-- The local `_indent_query` of sparql_utils.inject_subquery with the
default indent of 2: every line of the query is prefixed with two spaces and
suffixed with a newline, and the pieces are concatenated. -/
def indent_query (query : List Char) : List Char :=
  ((splitlinesChar query).map fun l => ' ' :: ' ' :: (l ++ ['\n'])).flatten

/-- Index of the last closing brace in a character list, the model of
Python's `query.rfind("\x7d")` success case (`none` models the return
value -1). -/
def rfindBrace : List Char → Option Nat
  | [] => none
  | c :: cs =>
    match rfindBrace cs with
    | some i => some (i + 1)
    | none => if c = '}' then some 0 else none

/-- sparql_utils.inject_subquery.  `point` is `query.rfind("\x7d")`;
`query[:point]` is `take point` when a brace exists and `take (length - 1)`
when `rfind` returns -1 (Python slicing with a negative stop).  The tail is
the f-string: two spaces, an opening brace, the indented subquery, a closing
brace, a newline and a final closing brace. -/
def inject_subquery (query subquery : List Char) : List Char :=
  let point : Nat :=
    match rfindBrace query with
    | some p => p
    | none => query.length - 1
  query.take point ++ ' ' :: ' ' :: '{' :: (indent_query subquery ++ '}' :: '\n' :: ['}'])

/-! ## Brace accounting for the inject_subquery claims -/

/-- Net brace balance of a character list: opening braces count +1, closing
braces -1. -/
def braceBal (s : List Char) : Int :=
  s.foldl (fun d c => if c = '{' then d + 1 else if c = '}' then d - 1 else d) 0

/-- One step of the depth scan that counts closing braces of the outer
group: the running state is the current nesting depth and the number of
closing braces seen at depth 1 (the ones that close the outer group). -/
def outerStep (st : Int × Nat) (c : Char) : Int × Nat :=
  if c = '{' then (st.1 + 1, st.2)
  else if c = '}' then (st.1 - 1, if st.1 = 1 then st.2 + 1 else st.2)
  else st

/-- Number of closing braces that close the outer group of `s` (depth scan
from depth 0). -/
def outerCloseCount (s : List Char) : Nat :=
  (s.foldl outerStep (0, 0)).2

/-! ## Model of SPARQLModelAdapter._get_count -/

/-- adapter._get_count given the binding rows the executor returns for the
count query: `int(next(result)["cnt"])`.  An empty result exhausts the
iterator (`StopIteration`); otherwise the `cnt` binding of the first row is
read (a missing binding is a `KeyError`) and coerced with `int`. -/
def get_count (rows : List Row) : Except PyError Int :=
  match rows with
  | [] => .error .stopIteration
  | r :: _ =>
    match alookup r "cnt" with
    | none => .error (.keyError "cnt")
    | some v => pyIntOfValue v

/-! ## Model of SPARQLModelAdapter._query_group_by

The adapter pairs each result row with a constructed model instance; the
model type is abstract here (`μ`), and the input is the list of
(model, bindings) pairs the generator yields, in result order. -/

/-- One `group[str(key)].append(model)` on a `defaultdict(list)` embedded as
an association list in dict insertion order: an existing key gets the model
appended to its list, a new key is appended at the end. -/
def upsert {μ : Type} : List (String × List μ) → String → μ → List (String × List μ)
  | [], s, m => [(s, [m])]
  | (t, ms) :: rest, s, m =>
    if t = s then (t, ms ++ [m]) :: rest
    else (t, ms) :: upsert rest s m

/-- The loop of adapter._query_group_by over the remaining rows, carrying
the group mapping built so far; a row without the `group_by` binding raises
`UndefinedBindingException` naming the binding and the row. -/
def groupByKeyAux {μ : Type} (k : String) :
    List (μ × Row) → List (String × List μ) → Except PyError (List (String × List μ))
  | [], g => .ok g
  | (m, b) :: rest, g =>
    match alookup b k with
    | none => .error (.undefinedBinding k b)
    | some v => groupByKeyAux k rest (upsert g (pyStr v) m)

/-- adapter._query_group_by on the (model, bindings) pairs of a query
result. -/
def groupByKey {μ : Type} (k : String) (rows : List (μ × Row)) :
    Except PyError (List (String × List μ)) :=
  groupByKeyAux k rows []

/-- Fold a list of strings into an accumulator keeping only first
occurrences, in order. -/
def keysFold (ks : List String) (l : List String) : List String :=
  l.foldl (fun acc s => if s ∈ acc then acc else acc ++ [s]) ks

/-- The distinct values of a list of strings, in order of first
occurrence. -/
def firstOcc (l : List String) : List String := keysFold [] l

/-- Pure counterpart of the grouping loop: fold (model, key-string) pairs
into the mapping with `upsert`. -/
def gInsertAll {μ : Type} (g : List (String × List μ)) (l : List (μ × String)) :
    List (String × List μ) :=
  l.foldl (fun acc p => upsert acc p.2 p.1) g

/-! ## Model of pagination (adapter._query_paginate_ungrouped and
adapter._query_paginate_grouped)

The pagination template `ungrouped_pagination_base_query` and the query
executor live outside src/ (sparql_templates.py and the SPARQLWrapper
collaborator), so their effect is modelled from the spec. -/

/-- The Page model (rdfproxy.utils.models.Page): items (a sequence for the
ungrouped branch, a group mapping for the grouped one), the caller-supplied
page and size, the reported total and the derived page count. -/
structure PageT (ι : Type) where
  items : ι
  page : Int
  size : Int
  total : Int
  pages : Int
deriving DecidableEq

/-- Exact ceiling of the integer division `a / b` for positive `b`, the
model of Python's `math.ceil(a / b)` (Python divides in floating point;
the model is the exact ceiling, which coincides on every realistic count). -/
def mathCeilDiv (a b : Int) : Int := -((-a).ediv b)

/-- Modelled from the spec: the query executor run on the query obtained by
substituting offset and limit into the pagination template
`ungrouped_pagination_base_query` (sparql_templates.py, not under src/)
returns the offset/limit slice of the source rows. -/
def run_paginated_query {μ : Type} (source : List μ) (offset limit : Nat) : List μ :=
  (source.drop offset).take limit

/-- Modelled from the spec: the query executor run on the count query built
by `construct_count_query` returns a single row binding `cnt` to the number
of source rows. -/
def run_count_query {μ : Type} (source : List μ) : List Row :=
  [[("cnt", Value.vInt source.length)]]

/-- adapter._query_paginate_ungrouped over an abstract source of rows:
items are the slice the executor returns for the paginated query, total is
read by `_get_count` from the count-query result, and
`pages = math.ceil(total / size)`. -/
def query_paginate_ungrouped {μ : Type} (source : List μ) (page size : Int) :
    Except PyError (PageT (List μ)) :=
  match get_count (run_count_query source) with
  | .error e => .error e
  | .ok total =>
    .ok { items := run_paginated_query source (calculate_offset page size).toNat size.toNat,
          page := page, size := size, total := total,
          pages := mathCeilDiv total size }

/-- The distinct stringified values of the `group_by` binding across the
source rows, in result order of first occurrence. -/
def grouped_source_keys {μ : Type} (rows : List (μ × Row)) (k : String) : List String :=
  firstOcc (rows.filterMap fun p => (alookup p.2 k).map pyStr)

/-- Modelled from the spec: the executor run on the query built by
`construct_grouped_pagination_query` returns the source rows whose
`group_by` value falls in the requested offset/limit page of distinct
grouping-key values. -/
def run_grouped_paginated_query {μ : Type} (rows : List (μ × Row)) (k : String)
    (offset limit : Nat) : List (μ × Row) :=
  let pageKeys := ((grouped_source_keys rows k).drop offset).take limit
  rows.filter fun p =>
    match alookup p.2 k with
    | some v => decide (pyStr v ∈ pageKeys)
    | none => false

/-- Modelled from the spec: the executor run on the query built by
`construct_grouped_count_query` returns a single row binding `cnt` to the
number of distinct `group_by` values. -/
def run_grouped_count_query {μ : Type} (rows : List (μ × Row)) (k : String) : List Row :=
  [[("cnt", Value.vInt (grouped_source_keys rows k).length)]]

/-- adapter._query_paginate_grouped over an abstract source of
(model, bindings) pairs: items are the group mapping `_query_group_by`
builds from the grouped paginated query's rows, total is read by
`_get_count` from the grouped count result, and
`pages = math.ceil(total / size)`. -/
def query_paginate_grouped {μ : Type} (rows : List (μ × Row)) (page size : Int)
    (group_by : String) : Except PyError (PageT (List (String × List μ))) :=
  match groupByKey group_by
      (run_grouped_paginated_query rows group_by (calculate_offset page size).toNat size.toNat) with
  | .error e => .error e
  | .ok items =>
    match get_count (run_grouped_count_query rows group_by) with
    | .error e => .error e
    | .ok total =>
      .ok { items := items, page := page, size := size, total := total,
            pages := mathCeilDiv total size }

/-! ## Model of the argument dispatch of SPARQLModelAdapter.query -/

/-- Python values the match subject tuple can hold. -/
inductive PyVal where
  | vNone
  | vInt (n : Int)
  | vStr (s : String)
deriving DecidableEq

/-- The patterns appearing in the match arms of adapter.query: the literal
`None`, the class patterns `int()`, `str()` and `Any()`, and an
or-pattern. -/
inductive PyPat where
  | pNone
  | pIntClass
  | pStrClass
  | pAnyClass
  | pOr (a b : PyPat)

/-- Whether a single pattern matches a single value (`Any()` is modelled as
matching anything; the arm it appears in is unreachable regardless because
of the length test). -/
def patMatch : PyPat → PyVal → Bool
  | .pNone, .vNone => true
  | .pNone, _ => false
  | .pIntClass, .vInt _ => true
  | .pIntClass, _ => false
  | .pStrClass, .vStr _ => true
  | .pStrClass, _ => false
  | .pAnyClass, _ => true
  | .pOr a b, v => patMatch a v || patMatch b v

/-- CPython semantics of matching a sequence pattern against a tuple: the
lengths must agree, then the element patterns must match pointwise. -/
def seqMatch (ps : List PyPat) (vs : List PyVal) : Bool :=
  (ps.length == vs.length) && (List.zip ps vs).all fun pv => patMatch pv.1 pv.2

/-- The five-element sequence pattern of the arm
`case None, int(), Any() | int(), None, Any():` in adapter.query. -/
def mutualDepPattern : List PyPat :=
  [.pNone, .pIntClass, .pOr .pAnyClass .pIntClass, .pNone, .pAnyClass]

def pyOfOptInt : Option Int → PyVal
  | none => .vNone
  | some n => .vInt n

def pyOfOptStr : Option String → PyVal
  | none => .vNone
  | some s => .vStr s

/-- Outcome of the dispatch in adapter.query: which helper the call is
routed to, or which of the two `raise Exception(...)` arms fires. -/
inductive QueryDispatch where
  | collectModels
  | paginateUngrouped (page size : Int)
  | groupedBy (group_by : String)
  | paginateGrouped (page size : Int) (group_by : String)
  | errMutuallyDependent
  | errShouldNeverHappen
deriving DecidableEq

/-- The `match page, size, group_by` statement of adapter.query, arms in
source order.  The first four arms are the three-element tuple patterns;
the fifth arm's pattern is a five-element sequence pattern matched against
the three-element subject, and the final arm is the wildcard raising
`Exception("This should never happen.")`. -/
def adapterQuery (page size : Option Int) (group_by : Option String) : QueryDispatch :=
  match page, size, group_by with
  | none, none, none => .collectModels
  | some p, some s, none => .paginateUngrouped p s
  | none, none, some g => .groupedBy g
  | some p, some s, some g => .paginateGrouped p s g
  | _, _, _ =>
    if seqMatch mutualDepPattern [pyOfOptInt page, pyOfOptInt size, pyOfOptStr group_by]
    then .errMutuallyDependent
    else .errShouldNeverHappen

/-! ## Helper lemmas -/

lemma rfindBrace_eq_none_of_not_mem : ∀ t : List Char, '}' ∉ t → rfindBrace t = none := by
  intro t ht
  induction t with
  | nil => rfl
  | cons c cs ih =>
    have hc : c ≠ '}' := fun h => ht (h ▸ List.mem_cons_self c cs)
    have hcs : '}' ∉ cs := fun h => ht (List.mem_cons_of_mem c h)
    simp [rfindBrace, ih hcs, hc]

/-! ## Claims -/

/-- Claim C3: for all positive page and size, calculate_offset returns 0 for
page 1, size for page 2, and size * (page - 1) otherwise; in particular
calculate_offset 5 10 = 40. -/
theorem claim_C3_calculate_offset (page size : Int) (hp : 0 < page) (hs : 0 < size) :
    (page = 1 → calculate_offset page size = 0)
    ∧ (page = 2 → calculate_offset page size = size)
    ∧ (page ≠ 1 → page ≠ 2 → calculate_offset page size = size * (page - 1))
    ∧ calculate_offset 5 10 = 40 := by
  refine ⟨fun h1 => ?_, fun h2 => ?_, fun h1 h2 => ?_, by decide⟩
  · simp [calculate_offset, h1]
  · simp [calculate_offset, h2]
  · simp [calculate_offset, h1, h2]

theorem claim_C3_witness :
    0 < (5 : Int) ∧ 0 < (10 : Int)
    ∧ (((5 : Int) = 1 → calculate_offset 5 10 = 0)
        ∧ ((5 : Int) = 2 → calculate_offset 5 10 = 10)
        ∧ ((5 : Int) ≠ 1 → (5 : Int) ≠ 2 → calculate_offset 5 10 = 10 * (5 - 1))
        ∧ calculate_offset 5 10 = 40) :=
  ⟨by decide, by decide, claim_C3_calculate_offset 5 10 (by decide) (by decide)⟩

/-- Claim C1 (code bug): on a count query whose execution returns zero
binding rows, _get_count does not fail with a distinct EmptyCountResultError
as the spec requires; `int(next(result)["cnt"])` exhausts the result
iterator and raises the unchecked StopIteration. -/
theorem claim_C1_get_count_zero_rows :
    get_count ([] : List Row) = Except.error PyError.stopIteration
    ∧ PyError.stopIteration ≠ PyError.emptyCountResult := by
  exact ⟨rfl, by decide⟩

/-- Claim C2: on a query with no recognizable SELECT clause (the regex
search fails), replace_query_select_clause, construct_count_query and
construct_grouped_count_query all raise the malformed-query error
immediately, producing no rewritten query. -/
theorem claim_C2_malformed_query (q r g : List Char) (h : searchSel q = none) :
    replace_query_select_clause q r = Except.error PyError.malformedQuery
    ∧ construct_count_query q = Except.error PyError.malformedQuery
    ∧ construct_grouped_count_query q g = Except.error PyError.malformedQuery := by
  refine ⟨?_, ?_, ?_⟩ <;>
    simp [replace_query_select_clause, construct_count_query,
      construct_grouped_count_query, h]

theorem claim_C2_witness :
    searchSel ("ask where x".data) = none
    ∧ (replace_query_select_clause ("ask where x".data) ("z".data)
          = Except.error PyError.malformedQuery
        ∧ construct_count_query ("ask where x".data)
          = Except.error PyError.malformedQuery
        ∧ construct_grouped_count_query ("ask where x".data) ("g".data)
          = Except.error PyError.malformedQuery) :=
  ⟨by decide, claim_C2_malformed_query ("ask where x".data) ("z".data) ("g".data) (by decide)⟩

/-- Claim C9: on a query containing no closing brace, inject_subquery does
not raise; `rfind` returns -1, the Python slice `query[:-1]` silently drops
the final character, and the wrapped subquery plus a new closing brace are
appended to the truncated text. -/
theorem claim_C9_inject_no_brace (q sub : List Char) (h : '}' ∉ q) :
    inject_subquery q sub
      = q.dropLast ++ ' ' :: ' ' :: '{' :: (indent_query sub ++ '}' :: '\n' :: ['}']) := by
  have hn : rfindBrace q = none := rfindBrace_eq_none_of_not_mem q h
  simp [inject_subquery, hn, List.dropLast_eq_take]

theorem claim_C9_witness :
    '}' ∉ ("ask where x".data)
    ∧ inject_subquery ("ask where x".data) ("y".data)
      = ("ask where x".data).dropLast
        ++ ' ' :: ' ' :: '{' :: (indent_query ("y".data) ++ '}' :: '\n' :: ['}']) :=
  ⟨by decide, claim_C9_inject_no_brace ("ask where x".data) ("y".data) (by decide)⟩

/-- Claim C10: when exactly one of page and size is an integer and the
other is None, adapter.query raises; the dedicated mutually-dependent arm is
a five-element sequence pattern matched against the three-element subject,
so it never matches and such calls always reach the final catch-all raise. -/
theorem claim_C10_query_dispatch (page size : Option Int) (group_by : Option String)
    (h : page.isSome ≠ size.isSome) :
    adapterQuery page size group_by = QueryDispatch.errShouldNeverHappen
    ∧ seqMatch mutualDepPattern
        [pyOfOptInt page, pyOfOptInt size, pyOfOptStr group_by] = false
    ∧ ∀ vs : List PyVal, vs.length = 3 → seqMatch mutualDepPattern vs = false := by
  have hlen : ∀ vs : List PyVal, vs.length = 3 → seqMatch mutualDepPattern vs = false := by
    intro vs hvs
    simp [seqMatch, mutualDepPattern, hvs]
  refine ⟨?_, hlen _ (by simp), hlen⟩
  match page, size, group_by with
  | none, none, _ => simp at h
  | some _, some _, _ => simp at h
  | some p, none, none => simp [adapterQuery, seqMatch, mutualDepPattern]
  | some p, none, some g => simp [adapterQuery, seqMatch, mutualDepPattern]
  | none, some s, none => simp [adapterQuery, seqMatch, mutualDepPattern]
  | none, some s, some g => simp [adapterQuery, seqMatch, mutualDepPattern]

theorem claim_C10_witness :
    ((some 1 : Option Int).isSome ≠ (none : Option Int).isSome)
    ∧ adapterQuery (some 1) none none = QueryDispatch.errShouldNeverHappen
    ∧ seqMatch mutualDepPattern
        [pyOfOptInt (some 1), pyOfOptInt none, pyOfOptStr none] = false :=
  ⟨by decide,
    (claim_C10_query_dispatch (some 1) none none (by decide)).1,
    (claim_C10_query_dispatch (some 1) none none (by decide)).2.1⟩

/-! ## Lemmas about the SELECT-clause match -/

lemma ciStarts_drop : ∀ (p s r : List Char), ciStarts p s = some r →
    r = s.drop p.length ∧ p.length ≤ s.length := by
  intro p
  induction p with
  | nil =>
    intro s r h
    simp only [ciStarts, Option.some.injEq] at h
    subst h
    simp
  | cons a as ih =>
    intro s r h
    match s with
    | [] => simp [ciStarts] at h
    | c :: cs =>
      simp only [ciStarts] at h
      split at h
      · obtain ⟨h1, h2⟩ := ih cs r h
        refine ⟨by simpa using h1, by simpa using Nat.succ_le_succ h2⟩
      · simp at h

lemma lineRun_le : ∀ s : List Char, lineRun s ≤ s.length := by
  intro s
  induction s with
  | nil => simp [lineRun]
  | cons c cs ih =>
    simp only [lineRun]
    split
    · simp
    · simpa using Nat.succ_le_succ ih

lemma lineRun_drop : ∀ s : List Char,
    s.drop (lineRun s) = [] ∨ (s.drop (lineRun s)).head? = some '\n' := by
  intro s
  induction s with
  | nil => simp [lineRun]
  | cons c cs ih =>
    simp only [lineRun]
    split
    · rename_i hc
      right
      simp [hc]
    · simpa using ih

lemma matchLenAt_spec (s : List Char) (n : Nat) (h : matchLenAt s = some n) :
    n ≤ s.length ∧ (s.drop n = [] ∨ (s.drop n).head? = some '\n') := by
  simp only [matchLenAt] at h
  split at h
  · simp at h
  · rename_i rest hci
    match rest, hci with
    | [], hci => simp at h
    | c :: cs, hci =>
      simp only at h
      split at h
      case isFalse => simp at h
      case isTrue hsp =>
        split at h
        case isTrue => simp at h
        case isFalse hrun =>
          have hn : n = 7 + lineRun cs := by simpa using h.symm
          obtain ⟨hdrop, -⟩ := ciStarts_drop selectLit s (c :: cs) hci
          have h6 : s.drop 6 = c :: cs := by
            simpa [selectLit] using hdrop.symm
          have h7 : s.drop 7 = cs := by
            have h17 : s.drop (1 + 6) = (s.drop 6).drop 1 := (List.drop_drop 1 6 s).symm
            simpa [h6] using h17
          have hlen6 : s.length - 6 = cs.length + 1 := by
            have := congrArg List.length h6
            simpa using this
          refine ⟨by have := lineRun_le cs; omega, ?_⟩
          have hdn : s.drop n = cs.drop (lineRun cs) := by
            rw [hn, ← List.drop_drop, h7]
          rw [hdn]
          exact lineRun_drop cs

lemma searchSelAux_spec : ∀ (s : List Char) (i0 i n : Nat),
    searchSelAux s i0 = some (i, n) →
    i0 ≤ i ∧ matchLenAt (s.drop (i - i0)) = some n
      ∧ ∀ j, j < i - i0 → matchLenAt (s.drop j) = none := by
  intro s
  induction s with
  | nil => intro i0 i n h; simp [searchSelAux] at h
  | cons c cs ih =>
    intro i0 i n h
    simp only [searchSelAux] at h
    split at h
    · rename_i m hm
      obtain ⟨hi, hn⟩ : i0 = i ∧ m = n := by
        simpa using h
      subst hi
      refine ⟨le_refl _, by simpa [hn] using hm, fun j hj => absurd hj (by omega)⟩
    · rename_i hm
      obtain ⟨h1, h2, h3⟩ := ih (i0 + 1) i n h
      refine ⟨by omega, ?_, ?_⟩
      · have : (c :: cs).drop (i - i0) = cs.drop (i - (i0 + 1)) := by
          have : i - i0 = (i - (i0 + 1)) + 1 := by omega
          simp [this]
        rw [this]
        exact h2
      · intro j hj
        match j with
        | 0 => simpa using hm
        | j' + 1 =>
          have : (c :: cs).drop (j' + 1) = cs.drop j' := by simp
          rw [this]
          exact h3 j' (by omega)

/-- Claim C4: on a query with a recognizable SELECT clause,
replace_query_select_clause substitutes the replacement for the leftmost
case-insensitive SELECT match, exactly once: the result is the text before
the match, then the replacement, then the text after the match, both
surrounding parts byte-identical; no earlier position matches, and the
replaced clause extends to the end of a line (the remainder is empty or
starts with a newline). -/
theorem claim_C4_replace_select_clause (q r : List Char) (i n : Nat)
    (h : searchSel q = some (i, n)) :
    replace_query_select_clause q r = Except.ok (q.take i ++ r ++ q.drop (i + n))
    ∧ matchLenAt (q.drop i) = some n
    ∧ (∀ j, j < i → matchLenAt (q.drop j) = none)
    ∧ (q.drop (i + n) = [] ∨ (q.drop (i + n)).head? = some '\n') := by
  obtain ⟨-, h2, h3⟩ := searchSelAux_spec q 0 i n h
  simp only [Nat.sub_zero] at h2 h3
  refine ⟨by simp [replace_query_select_clause, h], h2, h3, ?_⟩
  have hd : q.drop (i + n) = (q.drop i).drop n := by
    rw [List.drop_drop, Nat.add_comm]
  rw [hd]
  exact (matchLenAt_spec (q.drop i) n h2).2

theorem claim_C4_witness :
    searchSel ("select ?x\nwhere y".data) = some (0, 9)
    ∧ (replace_query_select_clause ("select ?x\nwhere y".data) ("Z".data)
        = Except.ok (("select ?x\nwhere y".data).take 0 ++ "Z".data
            ++ ("select ?x\nwhere y".data).drop 9)
      ∧ matchLenAt (("select ?x\nwhere y".data).drop 0) = some 9
      ∧ (∀ j, j < 0 → matchLenAt (("select ?x\nwhere y".data).drop j) = none)
      ∧ (("select ?x\nwhere y".data).drop 9 = []
          ∨ (("select ?x\nwhere y".data).drop 9).head? = some '\n')) :=
  ⟨by decide, claim_C4_replace_select_clause ("select ?x\nwhere y".data) ("Z".data) 0 9 (by decide)⟩

/-! ## Lemmas about the grouping loop -/

lemma upsert_keys {μ : Type} (g : List (String × List μ)) (s : String) (m : μ) :
    (upsert g s m).map Prod.fst =
      if s ∈ g.map Prod.fst then g.map Prod.fst else g.map Prod.fst ++ [s] := by
  induction g with
  | nil => simp [upsert]
  | cons e rest ih =>
    obtain ⟨t, ms⟩ := e
    by_cases hts : t = s
    · simp [upsert, hts]
    · have hst : ¬s = t := fun hh => hts hh.symm
      simp only [upsert, if_neg hts, List.map_cons, ih, List.mem_cons]
      by_cases hmem : s ∈ rest.map Prod.fst
      · simp [hmem, hst]
      · simp [hmem, hst]

lemma upsert_alookup {μ : Type} (g : List (String × List μ)) (s : String) (m : μ)
    (t : String) :
    alookup (upsert g s m) t =
      if t = s then some (((alookup g s).getD []) ++ [m]) else alookup g t := by
  induction g with
  | nil =>
    by_cases hts : t = s
    · simp [upsert, alookup, hts]
    · have hst : ¬s = t := fun hh => hts hh.symm
      simp [upsert, alookup, hts, hst]
  | cons e rest ih =>
    obtain ⟨u, ms⟩ := e
    by_cases hus : u = s
    · subst hus
      by_cases hts : t = u
      · simp [upsert, alookup, hts]
      · have hut : ¬u = t := fun hh => hts hh.symm
        simp [upsert, alookup, hts, hut]
    · by_cases hut : u = t
      · subst hut
        have hts : ¬u = s := hus
        simp [upsert, alookup, hus, fun hh : u = s => hus hh]
      · simp [upsert, alookup, hus, hut, ih]

lemma upsert_sum {μ : Type} (g : List (String × List μ)) (s : String) (m : μ) :
    ((upsert g s m).map fun e => e.2.length).sum
      = ((g.map fun e => e.2.length).sum) + 1 := by
  induction g with
  | nil => simp [upsert]
  | cons e rest ih =>
    obtain ⟨t, ms⟩ := e
    by_cases hts : t = s
    · simp only [upsert, if_pos hts, List.map_cons, List.sum_cons, List.length_append,
        List.length_singleton]
      omega
    · simp only [upsert, if_neg hts, List.map_cons, List.sum_cons, ih]
      omega

lemma gInsertAll_keys {μ : Type} : ∀ (l : List (μ × String)) (g : List (String × List μ)),
    (gInsertAll g l).map Prod.fst = keysFold (g.map Prod.fst) (l.map Prod.snd) := by
  intro l
  induction l with
  | nil => intro g; simp [gInsertAll, keysFold]
  | cons p rest ih =>
    intro g
    obtain ⟨m, s⟩ := p
    have h1 : gInsertAll g ((m, s) :: rest) = gInsertAll (upsert g s m) rest := rfl
    have h2 : keysFold (g.map Prod.fst) (((m, s) :: rest).map Prod.snd)
        = keysFold (if s ∈ g.map Prod.fst then g.map Prod.fst else g.map Prod.fst ++ [s])
            (rest.map Prod.snd) := by
      simp [keysFold]
    rw [h1, h2, ih, upsert_keys]

lemma keysFold_mem (t : String) : ∀ (l : List String) (ks : List String),
    t ∈ keysFold ks l ↔ t ∈ ks ∨ t ∈ l := by
  intro l
  induction l with
  | nil => intro ks; simp [keysFold]
  | cons s rest ih =>
    intro ks
    have h1 : keysFold ks (s :: rest) = keysFold (if s ∈ ks then ks else ks ++ [s]) rest := by
      simp [keysFold]
    rw [h1, ih]
    by_cases hs : s ∈ ks
    · simp only [if_pos hs, List.mem_cons]
      constructor
      · rintro (hk | hr)
        · exact Or.inl hk
        · exact Or.inr (Or.inr hr)
      · rintro (hk | ht | hr)
        · exact Or.inl hk
        · exact Or.inl (ht ▸ hs)
        · exact Or.inr hr
    · simp only [if_neg hs, List.mem_append, List.mem_singleton, List.mem_cons]
      tauto

lemma gInsertAll_alookup_none {μ : Type} :
    ∀ (l : List (μ × String)) (g : List (String × List μ)) (t : String),
    alookup (gInsertAll g l) t = none ↔ (alookup g t = none ∧ t ∉ l.map Prod.snd) := by
  intro l
  induction l with
  | nil => intro g t; simp [gInsertAll]
  | cons p rest ih =>
    intro g t
    obtain ⟨m, s⟩ := p
    have h1 : gInsertAll g ((m, s) :: rest) = gInsertAll (upsert g s m) rest := rfl
    rw [h1, ih]
    rw [upsert_alookup]
    by_cases hts : t = s
    · simp [hts]
    · simp [hts]

lemma gInsertAll_alookup_list {μ : Type} :
    ∀ (l : List (μ × String)) (g : List (String × List μ)) (t : String),
    ((alookup (gInsertAll g l) t).getD []) =
      ((alookup g t).getD []) ++ (l.filter fun p => p.2 = t).map Prod.fst := by
  intro l
  induction l with
  | nil => intro g t; simp [gInsertAll]
  | cons p rest ih =>
    intro g t
    obtain ⟨m, s⟩ := p
    have h1 : gInsertAll g ((m, s) :: rest) = gInsertAll (upsert g s m) rest := rfl
    rw [h1, ih, upsert_alookup]
    by_cases hts : t = s
    · subst hts
      simp [List.filter_cons]
    · have hst : ¬s = t := fun hh => hts hh.symm
      simp [hts, hst, List.filter_cons]

lemma gInsertAll_sum {μ : Type} :
    ∀ (l : List (μ × String)) (g : List (String × List μ)),
    ((gInsertAll g l).map fun e => e.2.length).sum
      = ((g.map fun e => e.2.length).sum) + l.length := by
  intro l
  induction l with
  | nil => intro g; simp [gInsertAll]
  | cons p rest ih =>
    intro g
    obtain ⟨m, s⟩ := p
    have h1 : gInsertAll g ((m, s) :: rest) = gInsertAll (upsert g s m) rest := rfl
    rw [h1, ih, upsert_sum]
    simp
    omega

lemma groupByKeyAux_ok {μ : Type} (k : String) :
    ∀ (rows : List (μ × Row)) (g : List (String × List μ)),
    (∀ p ∈ rows, (alookup p.2 k).isSome) →
    groupByKeyAux k rows g
      = .ok (gInsertAll g (rows.filterMap fun p => (alookup p.2 k).map fun v => (p.1, pyStr v))) := by
  intro rows
  induction rows with
  | nil => intro g _; simp [groupByKeyAux, gInsertAll]
  | cons p rest ih =>
    intro g h
    obtain ⟨m, b⟩ := p
    have hb : (alookup b k).isSome := h (m, b) (List.mem_cons_self _ _)
    obtain ⟨v, hv⟩ := Option.isSome_iff_exists.mp hb
    have hrest : ∀ p ∈ rest, (alookup p.2 k).isSome :=
      fun p hp => h p (List.mem_cons_of_mem _ hp)
    simp only [groupByKeyAux, hv, List.filterMap_cons]
    rw [ih (upsert g (pyStr v) m) hrest]
    rfl

lemma filterMap_pairs_snd {μ : Type} (k : String) : ∀ rows : List (μ × Row),
    (rows.filterMap fun p => (alookup p.2 k).map fun v => (p.1, pyStr v)).map Prod.snd
      = rows.filterMap fun p => (alookup p.2 k).map pyStr := by
  intro rows
  induction rows with
  | nil => simp
  | cons p rest ih =>
    cases hv : alookup p.2 k with
    | none => simp [List.filterMap_cons, hv, ih]
    | some v => simp [List.filterMap_cons, hv, ih]

lemma filterMap_pairs_filter {μ : Type} (k s : String) : ∀ rows : List (μ × Row),
    ((rows.filterMap fun p => (alookup p.2 k).map fun v => (p.1, pyStr v)).filter
        fun q => q.2 = s).map Prod.fst
      = (rows.filter fun p => ((alookup p.2 k).map pyStr = some s)).map Prod.fst := by
  intro rows
  induction rows with
  | nil => simp
  | cons p rest ih =>
    cases hv : alookup p.2 k with
    | none => simp [List.filterMap_cons, List.filter_cons, hv, ih]
    | some v =>
      by_cases hvs : pyStr v = s
      · simp [List.filterMap_cons, List.filter_cons, hv, hvs, ih]
      · simp [List.filterMap_cons, List.filter_cons, hv, hvs, ih]

lemma filterMap_pairs_length {μ : Type} (k : String) : ∀ rows : List (μ × Row),
    (∀ p ∈ rows, (alookup p.2 k).isSome) →
    (rows.filterMap fun p => (alookup p.2 k).map fun v => (p.1, pyStr v)).length
      = rows.length := by
  intro rows
  induction rows with
  | nil => simp
  | cons p rest ih =>
    intro h
    have hb : (alookup p.2 k).isSome := h p (List.mem_cons_self _ _)
    obtain ⟨v, hv⟩ := Option.isSome_iff_exists.mp hb
    have hrest := fun q hq => h q (List.mem_cons_of_mem _ hq)
    simp [List.filterMap_cons, hv, ih hrest]

/-- Claim C6: when every result row carries the grouping key,
_query_group_by returns a mapping whose keys are the stringified distinct
values of the key in order of first occurrence, whose key set equals the set
of stringified values across rows, whose per-group lists carry the models in
original row order, and whose groups together contain exactly one item per
row. -/
theorem claim_C6_group_by {μ : Type} (k : String) (rows : List (μ × Row))
    (h : ∀ p ∈ rows, (alookup p.2 k).isSome) :
    ∃ g, groupByKey k rows = Except.ok g
      ∧ g.map Prod.fst = firstOcc (rows.filterMap fun p => (alookup p.2 k).map pyStr)
      ∧ (∀ s, s ∈ g.map Prod.fst ↔ s ∈ rows.filterMap fun p => (alookup p.2 k).map pyStr)
      ∧ (∀ s ms, alookup g s = some ms →
          ms = (rows.filter fun p => ((alookup p.2 k).map pyStr = some s)).map Prod.fst)
      ∧ ((g.map fun e => e.2.length).sum = rows.length) := by
  have hok : groupByKey k rows
      = Except.ok (gInsertAll []
          (rows.filterMap fun p => (alookup p.2 k).map fun v => (p.1, pyStr v))) :=
    groupByKeyAux_ok k rows [] h
  refine ⟨_, hok, ?_, ?_, ?_, ?_⟩
  · rw [gInsertAll_keys, filterMap_pairs_snd]
    simp [firstOcc, keysFold]
  · intro s
    rw [gInsertAll_keys, keysFold_mem, filterMap_pairs_snd]
    simp
  · intro s ms hms
    have hlist := gInsertAll_alookup_list
      (rows.filterMap fun p => (alookup p.2 k).map fun v => (p.1, pyStr v)) [] s
    rw [hms] at hlist
    simp only [alookup, Option.getD_none, Option.getD_some, List.nil_append] at hlist
    rw [hlist, filterMap_pairs_filter]
  · rw [gInsertAll_sum, filterMap_pairs_length k rows h]
    simp

theorem claim_C6_witness :
    (∀ p ∈ [((10 : Nat), [("k", Value.vStr "a")]), (20, [("k", Value.vStr "b")]),
        (30, [("k", Value.vStr "a")])], (alookup p.2 "k").isSome)
    ∧ ∃ g, groupByKey "k" [((10 : Nat), [("k", Value.vStr "a")]),
          (20, [("k", Value.vStr "b")]), (30, [("k", Value.vStr "a")])] = Except.ok g
        ∧ g.map Prod.fst = firstOcc ([((10 : Nat), [("k", Value.vStr "a")]),
            (20, [("k", Value.vStr "b")]), (30, [("k", Value.vStr "a")])].filterMap
              fun p => (alookup p.2 "k").map pyStr)
        ∧ (∀ s, s ∈ g.map Prod.fst ↔ s ∈ [((10 : Nat), [("k", Value.vStr "a")]),
            (20, [("k", Value.vStr "b")]), (30, [("k", Value.vStr "a")])].filterMap
              fun p => (alookup p.2 "k").map pyStr)
        ∧ (∀ s ms, alookup g s = some ms →
            ms = ([((10 : Nat), [("k", Value.vStr "a")]), (20, [("k", Value.vStr "b")]),
                (30, [("k", Value.vStr "a")])].filter
                  fun p => ((alookup p.2 "k").map pyStr = some s)).map Prod.fst)
        ∧ ((g.map fun e => e.2.length).sum = 3) :=
  ⟨by decide, claim_C6_group_by "k" [((10 : Nat), [("k", Value.vStr "a")]),
    (20, [("k", Value.vStr "b")]), (30, [("k", Value.vStr "a")])] (by decide)⟩

lemma groupByKeyAux_error {μ : Type} (k : String) : ∀ rows : List (μ × Row),
    (∃ p ∈ rows, alookup p.2 k = none) →
    ∃ m b, (m, b) ∈ rows ∧ alookup b k = none
      ∧ ∀ g, groupByKeyAux k rows g = .error (.undefinedBinding k b) := by
  intro rows
  induction rows with
  | nil => intro h; simp at h
  | cons p rest ih =>
    intro h
    obtain ⟨m0, b0⟩ := p
    by_cases hb : alookup b0 k = none
    · exact ⟨m0, b0, List.mem_cons_self _ _, hb, fun g => by simp [groupByKeyAux, hb]⟩
    · obtain ⟨v, hv⟩ := Option.ne_none_iff_exists'.mp hb
      have hrest : ∃ p ∈ rest, alookup p.2 k = none := by
        obtain ⟨q, hq, hqn⟩ := h
        rcases List.mem_cons.mp hq with heq | hmem
        · rw [heq] at hqn
          exact absurd hqn hb
        · exact ⟨q, hmem, hqn⟩
      obtain ⟨m, b, hmem, hbn, hall⟩ := ih hrest
      exact ⟨m, b, List.mem_cons_of_mem _ hmem, hbn,
        fun g => by simp [groupByKeyAux, hv, hall]⟩

/-- Claim C7: on result rows at least one of which lacks the grouping key,
_query_group_by raises UndefinedBindingException naming the missing binding
and an offending row, and returns no partial group mapping. -/
theorem claim_C7_group_by_missing {μ : Type} (k : String) (rows : List (μ × Row))
    (h : ∃ p ∈ rows, alookup p.2 k = none) :
    ∃ m b, (m, b) ∈ rows ∧ alookup b k = none
      ∧ groupByKey k rows = Except.error (PyError.undefinedBinding k b)
      ∧ ∀ g, groupByKey k rows ≠ Except.ok g := by
  obtain ⟨m, b, hmem, hbn, hall⟩ := groupByKeyAux_error k rows h
  refine ⟨m, b, hmem, hbn, hall [], ?_⟩
  intro g hg
  rw [groupByKey, hall []] at hg
  exact absurd hg (by simp)

theorem claim_C7_witness :
    (∃ p ∈ [((1 : Nat), [("x", Value.vInt 1)])], alookup p.2 "g" = none)
    ∧ ∃ m b, (m, b) ∈ [((1 : Nat), [("x", Value.vInt 1)])] ∧ alookup b "g" = none
        ∧ groupByKey "g" [((1 : Nat), [("x", Value.vInt 1)])]
            = Except.error (PyError.undefinedBinding "g" b)
        ∧ ∀ g, groupByKey "g" [((1 : Nat), [("x", Value.vInt 1)])] ≠ Except.ok g :=
  ⟨by decide, claim_C7_group_by_missing "g" [((1 : Nat), [("x", Value.vInt 1)])] (by decide)⟩

/-! ## Lemmas about brace accounting -/

lemma rfindBrace_append (a rest : List Char) (j : Nat) (h : rfindBrace rest = some j) :
    rfindBrace (a ++ rest) = some (a.length + j) := by
  induction a with
  | nil => simpa using h
  | cons c cs ih =>
    have hstep : rfindBrace ((c :: cs) ++ rest)
        = match rfindBrace (cs ++ rest) with
          | some i => some (i + 1)
          | none => if c = '}' then some 0 else none := rfl
    rw [hstep, ih]
    show some (cs.length + j + 1) = some ((c :: cs).length + j)
    simp only [List.length_cons, Option.some.injEq]
    omega

/-- Per-character brace delta as folded by `braceBal`. -/
def brStep (d : Int) (c : Char) : Int :=
  if c = '{' then d + 1 else if c = '}' then d - 1 else d

lemma braceBal_eq_foldl (s : List Char) : braceBal s = s.foldl brStep 0 := rfl

lemma brStep_shift : ∀ (s : List Char) (d : Int), s.foldl brStep d = d + s.foldl brStep 0 := by
  intro s
  induction s with
  | nil => intro d; simp
  | cons c cs ih =>
    intro d
    have hc : brStep d c = d + brStep 0 c := by
      unfold brStep
      split_ifs <;> omega
    simp only [List.foldl_cons]
    rw [ih (brStep d c), ih (brStep 0 c), hc]
    omega

lemma outer_fst : ∀ (s : List Char) (st : Int × Nat),
    (s.foldl outerStep st).1 = st.1 + braceBal s := by
  intro s
  induction s with
  | nil => intro st; simp [braceBal]
  | cons c cs ih =>
    intro st
    have hb : braceBal (c :: cs) = brStep 0 c + braceBal cs := by
      rw [braceBal_eq_foldl, List.foldl_cons, brStep_shift cs (brStep 0 c),
        ← braceBal_eq_foldl]
    have hstep : (outerStep st c).1 = st.1 + brStep 0 c := by
      simp only [outerStep, brStep]
      split_ifs <;> (try simp) <;> omega
    rw [List.foldl_cons, ih (outerStep st c), hstep, hb]
    omega

lemma outer_snd_no_close : ∀ (u : List Char), '}' ∉ u → ∀ st : Int × Nat,
    (u.foldl outerStep st).2 = st.2 := by
  intro u
  induction u with
  | nil => intro _ st; rfl
  | cons c cs ih =>
    intro hu st
    have hc : c ≠ '}' := fun h => hu (h ▸ List.mem_cons_self c cs)
    have hcs : '}' ∉ cs := fun h => hu (List.mem_cons_of_mem c h)
    have hstep : (outerStep st c).2 = st.2 := by
      simp only [outerStep]
      split_ifs <;> simp_all
    rw [List.foldl_cons, ih hcs, hstep]

/-- Claim C5: injecting the empty-pattern subquery into a well-formed query
(a body of brace balance 1, its final closing brace, and a brace-free tail)
inserts the injection at the position of the last closing brace, preserves
the original content up to that point verbatim, and leaves the number of
closing braces that close the outer group unchanged. -/
theorem claim_C5_inject_empty_subquery (a t : List Char) (ht : '}' ∉ t)
    (ha : braceBal a = 1) :
    rfindBrace (a ++ '}' :: t) = some a.length
    ∧ (inject_subquery (a ++ '}' :: t) []).take a.length
        = (a ++ '}' :: t).take a.length
    ∧ outerCloseCount (inject_subquery (a ++ '}' :: t) [])
        = outerCloseCount (a ++ '}' :: t) := by
  have hnone : rfindBrace t = none := rfindBrace_eq_none_of_not_mem t ht
  have h0 : rfindBrace ('}' :: t) = some 0 := by simp [rfindBrace, hnone]
  have hfind : rfindBrace (a ++ '}' :: t) = some a.length := by
    simpa using rfindBrace_append a ('}' :: t) 0 h0
  have htakeq : (a ++ '}' :: t).take a.length = a := List.take_left a ('}' :: t)
  have hinj : inject_subquery (a ++ '}' :: t) []
      = a ++ [' ', ' ', '{', '}', '\n', '}'] := by
    simp only [inject_subquery, hfind, htakeq]
    simp [indent_query, splitlinesChar]
  refine ⟨hfind, ?_, ?_⟩
  · rw [hinj, htakeq, List.take_left]
  · rw [hinj]
    set st := List.foldl outerStep (0, 0) a with hst
    have hst1 : st.1 = 1 := by
      rw [hst, outer_fst, ha]
      norm_num
    have hpair : st = (1, st.2) := by
      rw [← hst1]
    have hleft : outerCloseCount (a ++ [' ', ' ', '{', '}', '\n', '}'])
        = (List.foldl outerStep st [' ', ' ', '{', '}', '\n', '}']).2 := by
      rw [outerCloseCount, List.foldl_append]
    have hright : outerCloseCount (a ++ '}' :: t)
        = (List.foldl outerStep st ('}' :: t)).2 := by
      rw [outerCloseCount, List.foldl_append]
    have htail : List.foldl outerStep (1, st.2) [' ', ' ', '{', '}', '\n', '}']
        = (0, st.2 + 1) := rfl
    have hbrace : List.foldl outerStep (1, st.2) ('}' :: t)
        = List.foldl outerStep (0, st.2 + 1) t := rfl
    rw [hleft, hright, hpair, htail, hbrace, outer_snd_no_close t ht (0, st.2 + 1)]

theorem claim_C5_witness :
    '}' ∉ (" limit 5".data)
    ∧ braceBal ('{' :: " x ".data) = 1
    ∧ (rfindBrace (('{' :: " x ".data) ++ '}' :: " limit 5".data)
          = some ('{' :: " x ".data).length
      ∧ (inject_subquery (('{' :: " x ".data) ++ '}' :: " limit 5".data) []).take
            ('{' :: " x ".data).length
          = (('{' :: " x ".data) ++ '}' :: " limit 5".data).take ('{' :: " x ".data).length
      ∧ outerCloseCount (inject_subquery (('{' :: " x ".data) ++ '}' :: " limit 5".data) [])
          = outerCloseCount (('{' :: " x ".data) ++ '}' :: " limit 5".data)) :=
  ⟨by decide, by decide,
    claim_C5_inject_empty_subquery ('{' :: " x ".data) (" limit 5".data)
      (by decide) (by decide)⟩

/-- Claim C8: every Page built by the pagination branches satisfies
pages = ceil(total / size), and on a 25-row source, page 2 of size 10 yields
total 25, pages 3 and at most 10 items. -/
theorem claim_C8_pagination {μ : Type} (page size : Int) (h : 0 < size) :
    (∀ (source : List μ) (pg : PageT (List μ)),
        query_paginate_ungrouped source page size = Except.ok pg →
        pg.pages = mathCeilDiv pg.total pg.size)
    ∧ (∀ (rows : List (μ × Row)) (k : String) (pg : PageT (List (String × List μ))),
        query_paginate_grouped rows page size k = Except.ok pg →
        pg.pages = mathCeilDiv pg.total pg.size)
    ∧ (∀ source : List μ, source.length = 25 →
        ∃ pg, query_paginate_ungrouped source 2 10 = Except.ok pg
          ∧ pg.total = 25 ∧ pg.pages = 3 ∧ pg.items.length ≤ 10) := by
  refine ⟨?_, ?_, ?_⟩
  · intro source pg hpg
    have hc : get_count (run_count_query source) = Except.ok (source.length : Int) := rfl
    simp only [query_paginate_ungrouped, hc] at hpg
    simp only [Except.ok.injEq] at hpg
    rw [← hpg]
  · intro rows k pg hpg
    have hcg : get_count (run_grouped_count_query rows k)
        = Except.ok ((grouped_source_keys rows k).length : Int) := rfl
    simp only [query_paginate_grouped, hcg] at hpg
    cases hg : groupByKey k (run_grouped_paginated_query rows k
        (calculate_offset page size).toNat size.toNat) with
    | error e =>
      rw [hg] at hpg
      simp at hpg
    | ok items =>
      rw [hg] at hpg
      simp only [Except.ok.injEq] at hpg
      rw [← hpg]
  · intro source hlen
    have hoff : (calculate_offset 2 10).toNat = 10 := by decide
    have h10 : ((10 : Int)).toNat = 10 := by decide
    have hceil : mathCeilDiv 25 10 = 3 := by decide
    have hc : get_count (run_count_query source) = Except.ok (25 : Int) := by
      have hbase : get_count (run_count_query source)
          = Except.ok (source.length : Int) := rfl
      rw [hbase, hlen]
      rfl
    refine ⟨{ items := run_paginated_query source 10 10, page := 2, size := 10,
              total := 25, pages := 3 }, ?_, rfl, rfl, ?_⟩
    · simp only [query_paginate_ungrouped, hc, hoff, h10, hceil]
    · exact List.length_take_le _ _

theorem claim_C8_witness :
    (0 : Int) < 10
    ∧ ((∀ (source : List Nat) (pg : PageT (List Nat)),
          query_paginate_ungrouped source 2 10 = Except.ok pg →
          pg.pages = mathCeilDiv pg.total pg.size)
      ∧ (∀ (rows : List (Nat × Row)) (k : String) (pg : PageT (List (String × List Nat))),
          query_paginate_grouped rows 2 10 k = Except.ok pg →
          pg.pages = mathCeilDiv pg.total pg.size)
      ∧ (∀ source : List Nat, source.length = 25 →
          ∃ pg, query_paginate_ungrouped source 2 10 = Except.ok pg
            ∧ pg.total = 25 ∧ pg.pages = 3 ∧ pg.items.length ≤ 10)) :=
  ⟨by decide, @claim_C8_pagination Nat 2 10 (by decide)⟩
